import Mathlib

/-!
# Verification of the genji document codec and index-input execution layer

This file embeds, at the byte level, the MessagePack codec from
`document/encoding/msgpack/codec.go` (together with the behaviour of the
vmihailenco msgpack v5 primitives it calls, with `UseCompactInts(true)` on
the encoder), and, at the value level, the index-input plan nodes and index
iterator from `sql/tree/input.go`.

Bytes are modelled as natural numbers below 256, byte streams as `List Nat`.
Machine integers are `Int` with explicit wrapping where the code wraps.
Go errors are `Option`/explicit error results; a Go `panic` is the
distinguished outcome `fatal`, kept apart from recoverable decode errors.
-/

/-! ## Big-endian byte helpers -/

/-- Two big-endian bytes of `n`. -/
def be2 (n : Nat) : List Nat := [n / 256 % 256, n % 256]

/-- Four big-endian bytes of `n`. -/
def be4 (n : Nat) : List Nat :=
  [n / 16777216 % 256, n / 65536 % 256, n / 256 % 256, n % 256]

/-- Eight big-endian bytes of `n`. -/
def be8 (n : Nat) : List Nat := be4 (n / 4294967296) ++ be4 (n % 4294967296)

/-- Value of a big-endian byte list. -/
def beVal (bs : List Nat) : Nat := List.foldl (fun a b => 256 * a + b) 0 bs

/-- Read `k` raw bytes from the stream: `(bytes read, rest)`. -/
def rdTake (k : Nat) (bs : List Nat) : Option (List Nat × List Nat) :=
  if k ≤ bs.length then some (bs.take k, bs.drop k) else none

/-- Reinterpret a natural below `2^64` as a signed 64-bit integer
(two's complement), as Go does when converting `uint64` to `int64`
or `time.Duration`. -/
def toInt64 (n : Nat) : Int := if n < 2 ^ 63 then (n : Int) else (n : Int) - 2 ^ 64

/-- Reinterpret a byte as a signed 8-bit integer (`int8`). -/
def i8val (t : Nat) : Int := if t < 128 then (t : Int) else (t : Int) - 256

/-- Reinterpret a natural below `2^16` as a signed 16-bit integer. -/
def i16val (n : Nat) : Int := if n < 2 ^ 15 then (n : Int) else (n : Int) - 2 ^ 16

/-- Reinterpret a natural below `2^32` as a signed 32-bit integer. -/
def i32val (n : Nat) : Int := if n < 2 ^ 31 then (n : Int) else (n : Int) - 2 ^ 32

/-! ## MessagePack marker predicates (`codes` package) -/

/-- `codes.IsFixedMap`: `0x80 ≤ c ≤ 0x8f`. -/
def isFixedMapCode (c : Nat) : Bool := decide (0x80 ≤ c ∧ c ≤ 0x8f)

/-- `codes.IsFixedArray`: `0x90 ≤ c ≤ 0x9f`. -/
def isFixedArrayCode (c : Nat) : Bool := decide (0x90 ≤ c ∧ c ≤ 0x9f)

/-- The array-marker test of `DecodeValue`:
`codes.IsFixedArray(c) || c == codes.Array16 || c == codes.Array32`. -/
def isArrayFamily (c : Nat) : Bool :=
  isFixedArrayCode c || decide (c = 0xdc ∨ c = 0xdd)

/-- The map-marker test of `DecodeValue`:
`codes.IsFixedMap(c) || c == codes.Map16 || c == codes.Map32`. -/
def isMapFamily (c : Nat) : Bool :=
  isFixedMapCode c || decide (c = 0xde ∨ c = 0xdf)

/-- `codes.IsString`: fixed strings `0xa0–0xbf` and `Str8/Str16/Str32`. -/
def isStringCode (c : Nat) : Bool :=
  decide (0xa0 ≤ c ∧ c ≤ 0xbf) || decide (c = 0xd9 ∨ c = 0xda ∨ c = 0xdb)

/-- `codes.IsExt`: `FixExt1–FixExt16` (`0xd4–0xd8`) and `Ext8/16/32`
(`0xc7–0xc9`). -/
def isExtCode (c : Nat) : Bool :=
  decide (0xd4 ≤ c ∧ c ≤ 0xd8) || decide (0xc7 ≤ c ∧ c ≤ 0xc9)

/-! ## The msgpack `Skip`/`DecodeRaw` primitives

`Decoder.DecodeRaw` records the raw bytes of the next value while skipping
it: the skip parses just enough framing (headers and lengths) to know where
the value ends, and never decodes scalar payloads or checks extension type
codes.  `mskip fuel k bs` skips `k` consecutive values, returning the
consumed span and the rest; `none` is the library's error (truncated input,
or the invalid marker `0xc1`).  `fuel` is a technical bound on recursion
depth; every theorem quantifies over it or supplies a sufficient amount. -/

def mskip : Nat → Nat → List Nat → Option (List Nat × List Nat)
  | _, 0, bs => some ([], bs)
  | 0, _ + 1, _ => none
  | _ + 1, _ + 1, [] => none
  | fuel + 1, k + 1, c :: r =>
    let one : Option (List Nat × List Nat) :=
      if c ≤ 0x7f ∨ 0xe0 ≤ c ∨ c = 0xc0 ∨ c = 0xc2 ∨ c = 0xc3 then
        some ([c], r)
      else if isFixedMapCode c then
        (mskip fuel (2 * (c - 0x80)) r).map (fun p => (c :: p.1, p.2))
      else if isFixedArrayCode c then
        (mskip fuel (c - 0x90) r).map (fun p => (c :: p.1, p.2))
      else if 0xa0 ≤ c ∧ c ≤ 0xbf then
        (rdTake (c - 0xa0) r).map (fun p => (c :: p.1, p.2))
      else if c = 0xc4 ∨ c = 0xd9 then
        match r with
        | l :: r2 => (rdTake l r2).map (fun p => (c :: l :: p.1, p.2))
        | [] => none
      else if c = 0xc5 ∨ c = 0xda then
        match r with
        | l1 :: l2 :: r2 =>
          (rdTake (256 * l1 + l2) r2).map (fun p => (c :: l1 :: l2 :: p.1, p.2))
        | _ => none
      else if c = 0xc6 ∨ c = 0xdb then
        match r with
        | l1 :: l2 :: l3 :: l4 :: r2 =>
          (rdTake (beVal [l1, l2, l3, l4]) r2).map
            (fun p => (c :: l1 :: l2 :: l3 :: l4 :: p.1, p.2))
        | _ => none
      else if c = 0xc7 then
        match r with
        | l :: r2 => (rdTake (l + 1) r2).map (fun p => (c :: l :: p.1, p.2))
        | [] => none
      else if c = 0xc8 then
        match r with
        | l1 :: l2 :: r2 =>
          (rdTake (256 * l1 + l2 + 1) r2).map (fun p => (c :: l1 :: l2 :: p.1, p.2))
        | _ => none
      else if c = 0xc9 then
        match r with
        | l1 :: l2 :: l3 :: l4 :: r2 =>
          (rdTake (beVal [l1, l2, l3, l4] + 1) r2).map
            (fun p => (c :: l1 :: l2 :: l3 :: l4 :: p.1, p.2))
        | _ => none
      else if c = 0xca then (rdTake 4 r).map (fun p => (c :: p.1, p.2))
      else if c = 0xcb then (rdTake 8 r).map (fun p => (c :: p.1, p.2))
      else if c = 0xcc ∨ c = 0xd0 then (rdTake 1 r).map (fun p => (c :: p.1, p.2))
      else if c = 0xcd ∨ c = 0xd1 then (rdTake 2 r).map (fun p => (c :: p.1, p.2))
      else if c = 0xce ∨ c = 0xd2 then (rdTake 4 r).map (fun p => (c :: p.1, p.2))
      else if c = 0xcf ∨ c = 0xd3 then (rdTake 8 r).map (fun p => (c :: p.1, p.2))
      else if 0xd4 ≤ c ∧ c ≤ 0xd8 then
        (rdTake (2 ^ (c - 0xd4) + 1) r).map (fun p => (c :: p.1, p.2))
      else if c = 0xdc then
        match r with
        | l1 :: l2 :: r2 =>
          (mskip fuel (256 * l1 + l2) r2).map (fun p => (c :: l1 :: l2 :: p.1, p.2))
        | _ => none
      else if c = 0xdd then
        match r with
        | l1 :: l2 :: l3 :: l4 :: r2 =>
          (mskip fuel (beVal [l1, l2, l3, l4]) r2).map
            (fun p => (c :: l1 :: l2 :: l3 :: l4 :: p.1, p.2))
        | _ => none
      else if c = 0xde then
        match r with
        | l1 :: l2 :: r2 =>
          (mskip fuel (2 * (256 * l1 + l2)) r2).map
            (fun p => (c :: l1 :: l2 :: p.1, p.2))
        | _ => none
      else if c = 0xdf then
        match r with
        | l1 :: l2 :: l3 :: l4 :: r2 =>
          (mskip fuel (2 * beVal [l1, l2, l3, l4]) r2).map
            (fun p => (c :: l1 :: l2 :: l3 :: l4 :: p.1, p.2))
        | _ => none
      else none
    match one with
    | none => none
    | some (c1, r1) => (mskip fuel k r1).map (fun p => (c1 ++ p.1, p.2))

/-- `Decoder.DecodeRaw`: the raw byte span of the next value and the rest
of the stream. -/
def DecodeRaw (fuel : Nat) (bs : List Nat) : Option (List Nat × List Nat) :=
  mskip fuel 1 bs

/-! ## The genji value model (`document.Value`), as the codec sees it

`MVal` is the tagged union of `document.Value`, restricted to payloads whose
tag matches (the invariant of spec §3).  A `Double` payload is carried as
its IEEE-754 bit pattern (a natural below `2^64`): the codec moves those 8
bytes opaquely.  Text and blob payloads are their Go byte sequences.
Documents and arrays come in the two representations of the repository:
materialized (`document.FieldBuffer` / `document.ValueBuffer`) and encoded
(`EncodedDocument` / `EncodedArray`, a lazily parsed raw byte span). -/

inductive MVal where
  | null
  | bool (b : Bool)
  | integer (n : Int)
  | double (bits : Nat)
  | text (s : List Nat)
  | blob (b : List Nat)
  | duration (n : Int)
  | docFB (fields : List (List Nat × MVal))
  | docEnc (bs : List Nat)
  | arrVB (elems : List MVal)
  | arrEnc (bs : List Nat)

/-- Result of `Decoder.DecodeValue`: a decoded value and the remaining
stream, a recoverable Go error (`err`), or a panic (`fatal`). -/
inductive DecRes where
  | ok (v : MVal) (rest : List Nat)
  | err
  | fatal

/-! ## msgpack scalar decode primitives used by `DecodeValue` -/

/-- `msgpack.Decoder.DecodeString`: string header then payload bytes. -/
def decodeStringBytes : List Nat → Option (List Nat × List Nat)
  | [] => none
  | c :: r =>
    if 0xa0 ≤ c ∧ c ≤ 0xbf then rdTake (c - 0xa0) r
    else if c = 0xd9 then
      match r with
      | l :: r2 => rdTake l r2
      | [] => none
    else if c = 0xda then
      match r with
      | l1 :: l2 :: r2 => rdTake (256 * l1 + l2) r2
      | _ => none
    else if c = 0xdb then
      match r with
      | l1 :: l2 :: l3 :: l4 :: r2 => rdTake (beVal [l1, l2, l3, l4]) r2
      | _ => none
    else none

/-- `msgpack.Decoder.DecodeBytes` for the binary markers `Bin8/16/32`. -/
def decodeBytesB : List Nat → Option (List Nat × List Nat)
  | [] => none
  | c :: r =>
    if c = 0xc4 then
      match r with
      | l :: r2 => rdTake l r2
      | [] => none
    else if c = 0xc5 then
      match r with
      | l1 :: l2 :: r2 => rdTake (256 * l1 + l2) r2
      | _ => none
    else if c = 0xc6 then
      match r with
      | l1 :: l2 :: l3 :: l4 :: r2 => rdTake (beVal [l1, l2, l3, l4]) r2
      | _ => none
    else none

/-- `msgpack.Decoder.DecodeInt64` restricted to the eight wide markers the
switch in `DecodeValue` dispatches on (`Uint8–Uint64`, `Int8–Int64`);
unsigned values above `2^63-1` wrap, exactly as Go's `int64` conversion. -/
def decodeInt64B : List Nat → Option (Int × List Nat)
  | [] => none
  | c :: r =>
    if c = 0xcc then
      match r with
      | b :: r2 => some ((b : Int), r2)
      | [] => none
    else if c = 0xcd then (rdTake 2 r).map (fun p => ((beVal p.1 : Int), p.2))
    else if c = 0xce then (rdTake 4 r).map (fun p => ((beVal p.1 : Int), p.2))
    else if c = 0xcf then (rdTake 8 r).map (fun p => (toInt64 (beVal p.1), p.2))
    else if c = 0xd0 then
      match r with
      | b :: r2 => some (i8val b, r2)
      | [] => none
    else if c = 0xd1 then (rdTake 2 r).map (fun p => (i16val (beVal p.1), p.2))
    else if c = 0xd2 then (rdTake 4 r).map (fun p => (i32val (beVal p.1), p.2))
    else if c = 0xd3 then (rdTake 8 r).map (fun p => (toInt64 (beVal p.1), p.2))
    else none

/-- `msgpack.Decoder.DecodeExtHeader`: `(type code as int8, declared
payload length, rest)`.  Succeeds only when the leading marker is an
extension marker and the header bytes are present. -/
def decodeExtHeaderB : List Nat → Option (Int × Nat × List Nat)
  | [] => none
  | c :: r =>
    if 0xd4 ≤ c ∧ c ≤ 0xd8 then
      match r with
      | t :: r2 => some (i8val t, 2 ^ (c - 0xd4), r2)
      | [] => none
    else if c = 0xc7 then
      match r with
      | l :: t :: r2 => some (i8val t, l, r2)
      | _ => none
    else if c = 0xc8 then
      match r with
      | l1 :: l2 :: t :: r2 => some (i8val t, 256 * l1 + l2, r2)
      | _ => none
    else if c = 0xc9 then
      match r with
      | l1 :: l2 :: l3 :: l4 :: t :: r2 => some (i8val t, beVal [l1, l2, l3, l4], r2)
      | _ => none
    else none

/-! ## `Decoder.DecodeValue` (codec.go:190–301)

The branch structure below mirrors the source exactly: array markers and
map markers wrap the raw span lazily; string markers decode Text; extension
markers are validated against `DurationType = 0x1` — any other extension
type code panics (`fatal`) — and the payload is read as 8 big-endian bytes
regardless of the declared length, exactly as the source's fixed
`buf [8]byte`; then the final switch handles nil, binary, booleans, the
eight wide integer markers, and `Double`; everything else panics. -/

def DecodeValue (fuel : Nat) (bs : List Nat) : DecRes :=
  match bs with
  | [] => .err
  | c :: r =>
    if isArrayFamily c then
      match DecodeRaw fuel bs with
      | some (raw, rest) => .ok (.arrEnc raw) rest
      | none => .err
    else if isMapFamily c then
      match DecodeRaw fuel bs with
      | some (raw, rest) => .ok (.docEnc raw) rest
      | none => .err
    else if isStringCode c then
      match decodeStringBytes bs with
      | some (s, rest) => .ok (.text s) rest
      | none => .err
    else if isExtCode c then
      match decodeExtHeaderB bs with
      | none => .err
      | some (t, _, rest) =>
        if t = 1 then
          match rdTake 8 rest with
          | some (payload, rest2) => .ok (.duration (toInt64 (beVal payload))) rest2
          | none => .err
        else .fatal
    else if c = 0xc0 then .ok .null r
    else if c = 0xc4 ∨ c = 0xc5 ∨ c = 0xc6 then
      match decodeBytesB bs with
      | some (b, rest) => .ok (.blob b) rest
      | none => .err
    else if c = 0xc2 then .ok (.bool false) r
    else if c = 0xc3 then .ok (.bool true) r
    else if 0xcc ≤ c ∧ c ≤ 0xd3 then
      match decodeInt64B bs with
      | some (n, rest) => .ok (.integer n) rest
      | none => .err
    else if c = 0xcb then
      match rdTake 8 r with
      | some (payload, rest) => .ok (.double (beVal payload)) rest
      | none => .err
    else .fatal

/-- `Decoder.DecodeDocument` (codec.go:306–313): take the raw span of the
next value and wrap it as a lazy `EncodedDocument`, without decoding the
contents. -/
def DecodeDocument (fuel : Nat) (bs : List Nat) : Option (MVal × List Nat) :=
  (DecodeRaw fuel bs).map (fun p => (.docEnc p.1, p.2))

/-- `Decoder.DecodeArray` (codec.go:318–325): the same lazy wrapping for
arrays. -/
def DecodeArray (fuel : Nat) (bs : List Nat) : Option (MVal × List Nat) :=
  (DecodeRaw fuel bs).map (fun p => (.arrEnc p.1, p.2))

/-! ## Iterating encoded containers -/

/-- Result of materializing the field list of an `EncodedDocument`. -/
inductive PairsRes where
  | ok (ps : List (List Nat × MVal)) (rest : List Nat)
  | err
  | fatal

/-- Result of materializing the element list of an `EncodedArray`. -/
inductive ElemsRes where
  | ok (es : List MVal) (rest : List Nat)
  | err
  | fatal

/-- Decode `n` consecutive (field name, value) pairs. -/
def decodePairsLoop (fuel : Nat) : Nat → List Nat → PairsRes
  | 0, bs => .ok [] bs
  | n + 1, bs =>
    match decodeStringBytes bs with
    | none => .err
    | some (f, r1) =>
      match DecodeValue fuel r1 with
      | .fatal => .fatal
      | .err => .err
      | .ok v r2 =>
        match decodePairsLoop fuel n r2 with
        | .ok ps rest => .ok ((f, v) :: ps) rest
        | .err => .err
        | .fatal => .fatal

/-- Decode `n` consecutive values. -/
def decodeElemsLoop (fuel : Nat) : Nat → List Nat → ElemsRes
  | 0, bs => .ok [] bs
  | n + 1, bs =>
    match DecodeValue fuel bs with
    | .fatal => .fatal
    | .err => .err
    | .ok v r1 =>
      match decodeElemsLoop fuel n r1 with
      | .ok es rest => .ok (v :: es) rest
      | .err => .err
      | .fatal => .fatal

/-- Modelled from the spec: `EncodedDocument.Iterate` (the lazily decoded
document type returned by `DecodeDocument`; its implementation file is not
under `src/`).  Per spec §3/§4.2 it decodes the map header, then decodes
the (field name, value) pairs one at a time in encoding order, failing at
the first malformed field name or value. -/
def docIterate (fuel : Nat) : List Nat → PairsRes
  | [] => .err
  | c :: r =>
    if isFixedMapCode c then decodePairsLoop fuel (c - 0x80) r
    else if c = 0xde then
      match r with
      | l1 :: l2 :: r2 => decodePairsLoop fuel (256 * l1 + l2) r2
      | _ => .err
    else if c = 0xdf then
      match r with
      | l1 :: l2 :: l3 :: l4 :: r2 => decodePairsLoop fuel (beVal [l1, l2, l3, l4]) r2
      | _ => .err
    else .err

/-- Modelled from the spec: `EncodedArray.Iterate` (not under `src/`);
decodes the array header then the elements one at a time. -/
def arrIterate (fuel : Nat) : List Nat → ElemsRes
  | [] => .err
  | c :: r =>
    if isFixedArrayCode c then decodeElemsLoop fuel (c - 0x90) r
    else if c = 0xdc then
      match r with
      | l1 :: l2 :: r2 => decodeElemsLoop fuel (256 * l1 + l2) r2
      | _ => .err
    else if c = 0xdd then
      match r with
      | l1 :: l2 :: l3 :: l4 :: r2 => decodeElemsLoop fuel (beVal [l1, l2, l3, l4]) r2
      | _ => .err
    else .err

/-- Modelled from the spec: `document.Length` applied to an encoded
document (`document` package is not under `src/`): it counts fields by
iterating the document once, failing when iteration fails. -/
def docLengthE (fuel : Nat) (bs : List Nat) : Option Nat :=
  match docIterate fuel bs with
  | .ok ps _ => some ps.length
  | _ => none

/-- Modelled from the spec: `document.ArrayLength` applied to an encoded
array: counts elements by iterating once. -/
def arrLengthE (fuel : Nat) (bs : List Nat) : Option Nat :=
  match arrIterate fuel bs with
  | .ok es _ => some es.length
  | _ => none

/-! ## msgpack scalar encode primitives

These model the vmihailenco msgpack v5 encoder methods the codec calls.
The encoder is created with `UseCompactInts(true)` (codec.go:47), so
`EncodeInt64` picks the smallest representation, including the single-byte
positive and negative fixed-integer markers. -/

/-- `msgpack.Encoder.EncodeString`. -/
def encodeStringB (s : List Nat) : List Nat :=
  if s.length < 32 then (0xa0 + s.length) :: s
  else if s.length < 256 then 0xd9 :: s.length :: s
  else if s.length < 65536 then 0xda :: (be2 s.length ++ s)
  else 0xdb :: (be4 s.length ++ s)

/-- `msgpack.Encoder.EncodeBytes` (binary family). -/
def encodeBytesB (b : List Nat) : List Nat :=
  if b.length < 256 then 0xc4 :: b.length :: b
  else if b.length < 65536 then 0xc5 :: (be2 b.length ++ b)
  else 0xc6 :: (be4 b.length ++ b)

/-- `msgpack.Encoder.EncodeInt64` with `UseCompactInts(true)`: the smallest
integer representation — positive fixint, `Uint8/16/32/64` for nonnegative
values, negative fixint and `Int8/16/32/64` for negative values. -/
def encodeInt64Compact (n : Int) : List Nat :=
  if 0 ≤ n then
    if n ≤ 127 then [n.toNat]
    else if n ≤ 255 then [0xcc, n.toNat]
    else if n ≤ 65535 then 0xcd :: be2 n.toNat
    else if n ≤ 4294967295 then 0xce :: be4 n.toNat
    else 0xcf :: be8 n.toNat
  else
    if -32 ≤ n then [(n + 256).toNat]
    else if -128 ≤ n then [0xd0, (n + 256).toNat]
    else if -32768 ≤ n then 0xd1 :: be2 (n + 65536).toNat
    else if -2147483648 ≤ n then 0xd2 :: be4 (n + 4294967296).toNat
    else 0xd3 :: be8 (n + 18446744073709551616).toNat

/-- `msgpack.Encoder.EncodeFloat64`: the `Double` marker followed by the
8 bytes of the IEEE-754 bit pattern. -/
def encodeFloat64Bits (bits : Nat) : List Nat := 0xcb :: be8 (bits % 2 ^ 64)

/-- `msgpack.Encoder.EncodeMapLen`. -/
def encodeMapLenB (n : Nat) : List Nat :=
  if n < 16 then [0x80 + n] else if n < 65536 then 0xde :: be2 n else 0xdf :: be4 n

/-- `msgpack.Encoder.EncodeArrayLen`. -/
def encodeArrayLenB (n : Nat) : List Nat :=
  if n < 16 then [0x90 + n] else if n < 65536 then 0xdc :: be2 n else 0xdd :: be4 n

/-- `msgpack.Encoder.EncodeExtHeader`: the fixext marker for lengths
1/2/4/8/16, otherwise `Ext8/16/32`, followed by the type-code byte. -/
def encodeExtHeaderB (t : Nat) (len : Nat) : List Nat :=
  if len = 1 then [0xd4, t]
  else if len = 2 then [0xd5, t]
  else if len = 4 then [0xd6, t]
  else if len = 8 then [0xd7, t]
  else if len = 16 then [0xd8, t]
  else if len < 256 then [0xc7, len, t]
  else if len < 65536 then 0xc8 :: (be2 len ++ [t])
  else 0xc9 :: (be4 len ++ [t])

/-! ## `Encoder.EncodeValue` / `EncodeDocument` / `EncodeArray`
(codec.go:55–166)

`EncodeDocument` asks a `*document.FieldBuffer` for its length directly
(`fb.Len()`), and computes the length of any other document — in
particular a lazily decoded `EncodedDocument` — with `document.Length`,
which iterates it once; it then writes the map-length marker and iterates
the document again, writing each (field name, value) pair. `EncodeArray`
is analogous with `document.ValueBuffer` and `document.ArrayLength`.
`EncodeValue` dispatches on the value's tag; `Duration` is written as an
extension header with type code `DurationType = 0x1` and length 8,
followed by the 8 big-endian bytes of `uint64(nanoseconds)`
(codec.go:137–162).

`fuel` bounds the recursion (nesting depth); every call after a `fuel + 1`
match passes `fuel`. -/

mutual

def EncodeValue : Nat → MVal → Option (List Nat)
  | 0, _ => none
  | fuel + 1, v =>
    match v with
    | .docFB fs => EncodeDocument fuel (.docFB fs)
    | .docEnc bs => EncodeDocument fuel (.docEnc bs)
    | .arrVB es => EncodeArray fuel (.arrVB es)
    | .arrEnc bs => EncodeArray fuel (.arrEnc bs)
    | .null => some [0xc0]
    | .text s => some (encodeStringB s)
    | .blob b => some (encodeBytesB b)
    | .bool b => some [if b then 0xc3 else 0xc2]
    | .integer n => some (encodeInt64Compact n)
    | .double bits => some (encodeFloat64Bits bits)
    | .duration n => some (encodeExtHeaderB 1 8 ++ be8 (n % 2 ^ 64).toNat)

def EncodeDocument : Nat → MVal → Option (List Nat)
  | 0, _ => none
  | fuel + 1, .docFB fs =>
    (encodePairs fuel fs).map (fun body => encodeMapLenB fs.length ++ body)
  | fuel + 1, .docEnc bs =>
    match docLengthE fuel bs with
    | none => none
    | some dlen =>
      match docIterate fuel bs with
      | .ok ps _ => (encodePairs fuel ps).map (fun body => encodeMapLenB dlen ++ body)
      | _ => none
  | _ + 1, _ => none

def EncodeArray : Nat → MVal → Option (List Nat)
  | 0, _ => none
  | fuel + 1, .arrVB es =>
    (encodeElems fuel es).map (fun body => encodeArrayLenB es.length ++ body)
  | fuel + 1, .arrEnc bs =>
    match arrLengthE fuel bs with
    | none => none
    | some alen =>
      match arrIterate fuel bs with
      | .ok es _ => (encodeElems fuel es).map (fun body => encodeArrayLenB alen ++ body)
      | _ => none
  | _ + 1, _ => none

def encodePairs : Nat → List (List Nat × MVal) → Option (List Nat)
  | 0, _ => none
  | _ + 1, [] => some []
  | fuel + 1, (f, v) :: rest =>
    match EncodeValue fuel v with
    | none => none
    | some ev =>
      match encodePairs fuel rest with
      | none => none
      | some er => some (encodeStringB f ++ ev ++ er)

def encodeElems : Nat → List MVal → Option (List Nat)
  | 0, _ => none
  | _ + 1, [] => some []
  | fuel + 1, v :: rest =>
    match EncodeValue fuel v with
    | none => none
    | some ev =>
      match encodeElems fuel rest with
      | none => none
      | some er => some (ev ++ er)

end

/-- The list of (field name, value) pairs actually written by
`EncodeDocument`'s iteration: the field list for a `FieldBuffer`, the
pairs produced by one iteration for an encoded document. -/
def writtenPairs (fuel : Nat) : MVal → Option (List (List Nat × MVal))
  | .docFB fs => some fs
  | .docEnc bs =>
    match docIterate fuel bs with
    | .ok ps _ => some ps
    | _ => none
  | _ => none

/-- The list of values actually written by `EncodeArray`'s iteration. -/
def writtenElems (fuel : Nat) : MVal → Option (List MVal)
  | .arrVB es => some es
  | .arrEnc bs =>
    match arrIterate fuel bs with
    | .ok es _ => some es
    | _ => none
  | _ => none

/-! ## Execution layer: values, indexes, tables (`sql/tree/input.go`)

The execution-layer claims concern `indexInputNode.ToStream` and
`indexIterator.Iterate`.  The `document`, `index` and `database` packages
they collaborate with are not under `src/`, so their contracts are
modelled from the spec where marked.  Values here carry `Double` payloads
as exact rationals (ℚ); the spec's open question about float precision at
the edge of 64-bit integer representability (§9) is outside the scope of
the claims, none of which exercises rounding.

`Iterate` is instrumented with an event trace: one `evalE` per filter
evaluation, one `fetchE k` per `GetDocument` call, one `yieldE k d` per
invocation of the consumer callback. Documents are opaque identifiers
(`Nat`). -/

/-- Modelled from the spec: the value model of the `document` package
(§3, §4.1), restricted to the tags the execution-layer claims exercise. -/
inductive XVal where
  | nullX
  | boolX (b : Bool)
  | intX (n : Int)
  | doubleX (q : ℚ)
  | textX (s : List Nat)
deriving DecidableEq

/-- Modelled from the spec: `ValueType.IsNumber` — Integer and Double are
the numeric types (§4.1). -/
def XVal.IsNumber : XVal → Bool
  | .intX _ => true
  | .doubleX _ => true
  | _ => false

/-- Error taxonomy of the execution layer (spec §7): table/index/primary-key
not found, expression evaluation failure, conversion failure. -/
inductive XErr where
  | notFoundKey (k : Nat)
  | notFoundTable (s : List Nat)
  | notFoundIndex (s : List Nat)
  | evalError
  | typeMismatch
deriving DecidableEq

/-- Modelled from the spec: `Value.ConvertTo(Float64Value)` — Integer
widens to Double, Double is unchanged, anything else is a type-mismatch
error (§4.1). -/
def XVal.ConvertToFloat64 : XVal → Except XErr XVal
  | .intX n => .ok (.doubleX (n : ℚ))
  | .doubleX q => .ok (.doubleX q)
  | _ => .error .typeMismatch

/-- Modelled from the spec: the total order on values used by the index
(§3, §4.1): numeric values compare numerically after widening Integer to
Double; otherwise values compare by type rank, booleans by false < true,
text byte-wise. `xlt a b` means `a < b`. -/
def xlt : XVal → XVal → Bool
  | .intX m, .intX n => decide (m < n)
  | .intX m, .doubleX q => Rat.blt (m : ℚ) q
  | .doubleX q, .intX n => Rat.blt q (n : ℚ)
  | .doubleX p, .doubleX q => Rat.blt p q
  | .boolX a, .boolX b => !a && b
  | .textX s, .textX t => decide (s < t)
  | a, b =>
    (match a with | .nullX => 0 | .boolX _ => 1 | .intX _ => 2 | .doubleX _ => 2 | .textX _ => 3)
      < (match b with | .nullX => 0 | .boolX _ => 1 | .intX _ => 2 | .doubleX _ => 2 | .textX _ => 3)

/-- A table: primary key → document identifier (spec §3, §6). -/
def XTable := List (Nat × Nat)

/-- `Table.GetDocument` by primary key. -/
def getDocument (tb : XTable) (k : Nat) : Option Nat := List.lookup k tb

/-- Modelled from the spec: an Index is an ordered structure mapping an
indexed value to primary keys (§3, §4.3); `entries` is in ascending order
of `xlt`. -/
structure XIndex where
  entries : List (XVal × Nat)

/-- The three-way result of a per-row visit callback (spec §6, §9):
continue, cooperative stop (the `errStop` sentinel of sql/tree/input.go),
or a genuine error. -/
inductive VisitRes where
  | cont
  | stop
  | fail (e : XErr)
deriving DecidableEq

/-- Outcome of `Iterate`: success (nil error), an error, or a Go panic
(`panicR`, e.g. a method call on a nil interface). -/
inductive IterResult where
  | okR
  | errR (e : XErr)
  | panicR
deriving DecidableEq

/-- Instrumentation events: filter evaluation, document fetch by primary
key, yield of a document to the consumer. -/
inductive Event where
  | evalE
  | fetchE (k : Nat)
  | yieldE (k : Nat) (d : Nat)
deriving DecidableEq

/-- Core ordered traversal: invoke `visit` on each (value, primary key)
entry in list order; `visit` returns its result together with the events
it generated.  Per spec §4.3, a `stop` from the visit callback ends the
traversal as success, an error aborts it and propagates. -/
def ascendVisit : List (XVal × Nat) → (XVal → Nat → VisitRes × List Event) →
    IterResult × List Event
  | [], _ => (.okR, [])
  | e :: rest, visit =>
    match visit e.1 e.2 with
    | (.cont, ev) =>
      let p := ascendVisit rest visit
      (p.1, ev ++ p.2)
    | (.stop, ev) => (.okR, ev)
    | (.fail er, ev) => (.errR er, ev)

/-- Modelled from the spec: `Index.AscendGreaterOrEqual` (§4.3) — ascending
traversal from an inclusive bound, `none` meaning the natural start. -/
def XIndex.AscendGreaterOrEqual (idx : XIndex) (bound : Option XVal)
    (visit : XVal → Nat → VisitRes × List Event) : IterResult × List Event :=
  ascendVisit
    (match bound with
     | none => idx.entries
     | some b => idx.entries.filter (fun e => !xlt e.1 b)) visit

/-- Modelled from the spec: `Index.DescendLessOrEqual` (§4.3) — descending
traversal from an inclusive bound, `none` meaning the natural end. -/
def XIndex.DescendLessOrEqual (idx : XIndex) (bound : Option XVal)
    (visit : XVal → Nat → VisitRes × List Event) : IterResult × List Event :=
  ascendVisit
    (match bound with
     | none => idx.entries
     | some b => idx.entries.filter (fun e => !xlt b e.1)).reverse visit

/-- The visit closure built inside `indexIterator.Iterate`
(input.go:104–120): fetch the document for the visited primary key —
a missing key is surfaced as the table's not-found error, aborting the
traversal — and hand the document to the consumer callback. -/
def fetchVisit (tb : XTable) (fn : Nat → VisitRes) : XVal → Nat → VisitRes × List Event :=
  fun _ k =>
    match getDocument tb k with
    | none => (.fail (.notFoundKey k), [.fetchE k])
    | some d => (fn d, [.fetchE k, .yieldE k d])

/-- Modelled from the spec: the filter expression collaborator (§6): an
expression evaluates against the transaction/parameter context to a value
or an evaluation error.  `constE` ignores the context, as a literal bound
does. -/
inductive XExpr where
  | constE (v : XVal)
  | failE
deriving DecidableEq

/-- `Expr.Eval` (spec §6). -/
def XExpr.Eval : XExpr → Except XErr XVal
  | .constE v => .ok v
  | .failE => .error .evalError

/-- Modelled from the spec: the closed set of index-traversal strategies
(`indexIteratorOperator`, input.go:83–85; §4.4, §9).  Only the
"greater than" strategy is needed by the claims. -/
inductive IterOpKind where
  | gtOp
deriving DecidableEq

/-- Modelled from the spec: `IterateIndex` of the "greater than" strategy —
a one-sided range seek: traverse, in ascending index order, exactly the
entries whose value is strictly greater than the bound, fetching and
yielding each entry's document (§4.4, §8 "Numeric widening"). -/
def runOp : IterOpKind → XIndex → XTable → XVal → (Nat → VisitRes) →
    IterResult × List Event
  | .gtOp, idx, tb, v, fn =>
    ascendVisit (idx.entries.filter (fun e => xlt v e.1)) (fetchVisit tb fn)

/-- `scanner.Token`, reduced to the values the execution layer inspects:
the zero value (`ILLEGAL`), `ASC` and `DESC`. -/
inductive Tok where
  | illegal
  | asc
  | desc
deriving DecidableEq

/-- `indexIterator` (input.go:87–95).  The `tx` and `params` fields only
feed the expression evaluation context, which the modelled expressions
ignore; they are omitted. -/
structure indexIterator where
  tb : XTable
  index : XIndex
  iop : Option IterOpKind
  e : Option XExpr
  orderByDirection : Tok

/-- `indexIterator.Iterate` (input.go:99–142), instrumented with its event
trace.

* No filter: full index traversal — descending iff `orderByDirection` is
  `DESC`, ascending otherwise — fetching and yielding each entry's
  document.
* Filter present: evaluate it (once), convert a numeric result to Double,
  then delegate to the traversal strategy `iop`.  `iop` is an interface
  value; calling `IterateIndex` on a nil `iop` is a Go nil-pointer panic,
  modelled as `panicR`. -/
def indexIterator.Iterate (it : indexIterator) (fn : Nat → VisitRes) :
    IterResult × List Event :=
  match it.e with
  | none =>
    if it.orderByDirection = .desc then
      it.index.DescendLessOrEqual none (fetchVisit it.tb fn)
    else
      it.index.AscendGreaterOrEqual none (fetchVisit it.tb fn)
  | some ex =>
    match ex.Eval with
    | .error er => (.errR er, [.evalE])
    | .ok v =>
      match (if v.IsNumber then v.ConvertToFloat64 else .ok v) with
      | .error er => (.errR er, [.evalE])
      | .ok v2 =>
        match it.iop with
        | none => (.panicR, [.evalE])
        | some op =>
          let p := runOp op it.index it.tb v2 fn
          (p.1, .evalE :: p.2)

/-- `indexInputNode` (input.go:39–61): the plan node carries the traversal
strategy, the optional filter and the ordering direction it was
constructed with. -/
structure indexInputNode where
  tableName : List Nat
  indexName : List Nat
  iop : IterOpKind
  e : Option XExpr
  orderByDirection : Tok

/-- The transaction collaborator (spec §6): name → table and name → index. -/
structure XTransaction where
  tables : List (List Nat × XTable)
  indexes : List (List Nat × XIndex)

/-- `Transaction.GetTable` (spec §6). -/
def XTransaction.GetTable (tx : XTransaction) (n : List Nat) : Except XErr XTable :=
  match List.lookup n tx.tables with
  | some tb => .ok tb
  | none => .error (.notFoundTable n)

/-- `Transaction.GetIndex` (spec §6). -/
def XTransaction.GetIndex (tx : XTransaction) (n : List Nat) : Except XErr XIndex :=
  match List.lookup n tx.indexes with
  | some idx => .ok idx
  | none => .error (.notFoundIndex n)

/-- `indexInputNode.ToStream` (input.go:63–81): resolve the table and the
index from the transaction, then build the `indexIterator`.  The composite
literal at input.go:74–80 sets only `tx`, `tb`, `params`, `index` and `e`;
the `iop` and `orderByDirection` fields are omitted and therefore take
Go's zero values — the nil interface and token 0 (`ILLEGAL`). -/
def indexInputNode.ToStream (i : indexInputNode) (tx : XTransaction) :
    Except XErr indexIterator := do
  let tb ← tx.GetTable i.tableName
  let idx ← tx.GetIndex i.indexName
  .ok { tb := tb
        index := idx
        e := i.e
        iop := none
        orderByDirection := .illegal }

/-- `document.NewStream(it)` followed by `Stream.Iterate(fn)` (spec §6):
the stream produced by `ToStream` drives the iterator's `Iterate`. -/
def streamIterate (i : indexInputNode) (tx : XTransaction) (fn : Nat → VisitRes) :
    Except XErr (IterResult × List Event) :=
  (i.ToStream tx).map (fun it => it.Iterate fn)

/-- Number of filter evaluations in a trace. -/
def countEval (tr : List Event) : Nat :=
  (tr.filter (fun e => match e with | .evalE => true | _ => false)).length

/-- Number of document fetches in a trace. -/
def countFetch (tr : List Event) : Nat :=
  (tr.filter (fun e => match e with | .fetchE _ => true | _ => false)).length

/-- Number of yields in a trace. -/
def countYield (tr : List Event) : Nat :=
  (tr.filter (fun e => match e with | .yieldE _ _ => true | _ => false)).length

/-- The documents a trace yields, in order. -/
def yieldedDocs (tr : List Event) : List Nat :=
  tr.filterMap (fun e => match e with | .yieldE _ d => some d | _ => none)

/-- The set of leading markers the specification recognizes (§4.2): array,
map, string and extension markers, nil, the binary markers, the booleans,
the full integer family (fixed positive and negative integers included),
and the float markers. -/
def recognizedMarker (c : Nat) : Bool :=
  isArrayFamily c || isMapFamily c || isStringCode c || isExtCode c ||
  decide (c = 0xc0) || decide (0xc4 ≤ c ∧ c ≤ 0xc6) || decide (c = 0xc2 ∨ c = 0xc3) ||
  decide (c ≤ 0x7f) || decide (0xe0 ≤ c ∧ c ≤ 0xff) || decide (0xcc ≤ c ∧ c ≤ 0xd3) ||
  decide (c = 0xca ∨ c = 0xcb)

/-! ## Concrete fixtures used by the claim theorems -/

/-- Table {1 ↦ 31, 2 ↦ 32, 3 ↦ 33, 4 ↦ 34} for the numeric-widening
scenario of spec §8. -/
def tblD4 : XTable := [(1, 31), (2, 32), (3, 33), (4, 34)]

/-- Index over the Doubles {1, 2, 3, 4}. -/
def idxD4 : XIndex := ⟨[(.doubleX 1, 1), (.doubleX 2, 2), (.doubleX 3, 3), (.doubleX 4, 4)]⟩

/-- Index iterator with an Integer-2 filter and the greater-than strategy
over `idxD4`. -/
def itGt2 : indexIterator := ⟨tblD4, idxD4, some .gtOp, some (.constE (.intX 2)), .asc⟩

/-- Table {1 ↦ 110, 2 ↦ 120, 3 ↦ 130} for the ordering scenario of §8. -/
def tblK3 : XTable := [(1, 110), (2, 120), (3, 130)]

/-- Index over the keys {10, 20, 30}. -/
def idxK3 : XIndex := ⟨[(.intX 10, 1), (.intX 20, 2), (.intX 30, 3)]⟩

/-- A transaction holding table "t" = `tblK3` and index "i" = `idxK3`. -/
def txK3 : XTransaction := ⟨[([0x74], tblK3)], [([0x69], idxK3)]⟩

/-- Index-input node: no filter, explicitly descending. -/
def nodeDescK3 : indexInputNode := ⟨[0x74], [0x69], .gtOp, none, .desc⟩

/-- Index-input node: greater-than strategy with an Integer-2 filter. -/
def nodeGt2 : indexInputNode := ⟨[0x74], [0x69], .gtOp, some (.constE (.intX 2)), .asc⟩

/-- A document whose framing is well formed (fixmap of one pair, field
name "a") but whose field value is an extension block with the unknown
type code `0x2`: content that `DecodeValue` rejects fatally. -/
def bsBadDoc : List Nat := [0x81, 0xa1, 0x61, 0xd4, 0x02, 0x00]

/-- An array whose single element is an extension block with the unknown
type code `0x2`. -/
def bsBadArr : List Nat := [0x91, 0xd4, 0x02, 0x00]

/-! ## Helper lemmas -/

theorem countEval_append (a b : List Event) :
    countEval (a ++ b) = countEval a + countEval b := by
  simp [countEval, List.filter_append]

theorem countFetch_append (a b : List Event) :
    countFetch (a ++ b) = countFetch a + countFetch b := by
  simp [countFetch, List.filter_append]

theorem countYield_append (a b : List Event) :
    countYield (a ++ b) = countYield a + countYield b := by
  simp [countYield, List.filter_append]

/-- The fetch-then-yield visit closure generates no filter-evaluation
events. -/
theorem countEval_ascendVisit_fetch (l : List (XVal × Nat)) (tb : XTable)
    (fn : Nat → VisitRes) : countEval (ascendVisit l (fetchVisit tb fn)).2 = 0 := by
  induction l with
  | nil => rfl
  | cons e rest ih =>
    cases hd : getDocument tb e.2 with
    | none => simp [ascendVisit, fetchVisit, hd, countEval]
    | some d =>
      cases hfn : fn d with
      | cont =>
        have hstep : ascendVisit (e :: rest) (fetchVisit tb fn) =
            ((ascendVisit rest (fetchVisit tb fn)).1,
              [Event.fetchE e.2, Event.yieldE e.2 d] ++ (ascendVisit rest (fetchVisit tb fn)).2) := by
          simp [ascendVisit, fetchVisit, hd, hfn]
        rw [hstep]
        simp only [countEval_append, ih]
        simp [countEval, List.filter]
      | stop => simp [ascendVisit, fetchVisit, hd, hfn, countEval]
      | fail er => simp [ascendVisit, fetchVisit, hd, hfn, countEval]

/-- A traversal strategy generates no filter-evaluation events. -/
theorem countEval_runOp (op : IterOpKind) (idx : XIndex) (tb : XTable)
    (v : XVal) (fn : Nat → VisitRes) :
    countEval (runOp op idx tb v fn).2 = 0 := by
  cases op with
  | gtOp => exact countEval_ascendVisit_fetch _ _ _

/-- Core early-stop lemma: if every entry of `pre` fetches a document on
which the consumer continues, and the next entry fetches a document on
which the consumer signals stop, the traversal ends successfully having
fetched and yielded exactly `pre.length + 1` documents. -/
theorem ascendVisit_stop (tb : XTable) (fn : Nat → VisitRes)
    (pre post : List (XVal × Nat)) (vx : XVal) (kx dx : Nat)
    (hpre : ∀ p ∈ pre, ∃ d, getDocument tb p.2 = some d ∧ fn d = .cont)
    (hx : getDocument tb kx = some dx) (hstop : fn dx = .stop) :
    ∃ tr, ascendVisit (pre ++ (vx, kx) :: post) (fetchVisit tb fn) = (.okR, tr) ∧
      countFetch tr = pre.length + 1 ∧ countYield tr = pre.length + 1 := by
  induction pre with
  | nil =>
    refine ⟨[.fetchE kx, .yieldE kx dx], ?_, by simp [countFetch], by simp [countYield]⟩
    simp [ascendVisit, fetchVisit, hx, hstop]
  | cons p pre ih =>
    obtain ⟨d, hd, hcont⟩ := hpre p (List.mem_cons_self p pre)
    obtain ⟨tr, htr, hf, hy⟩ := ih (fun q hq => hpre q (List.mem_cons_of_mem p hq))
    refine ⟨[.fetchE p.2, .yieldE p.2 d] ++ tr, ?_, ?_, ?_⟩
    · simp [ascendVisit, fetchVisit, hd, hcont, htr]
    · rw [countFetch_append, hf]
      simp [countFetch, List.filter]
      omega
    · rw [countYield_append, hy]
      simp [countYield, List.filter]
      omega

/-- Core consistency-violation lemma: if every entry of `pre` fetches a
document on which the consumer continues and the next entry's primary key
is absent from the table, the traversal aborts with that key's not-found
error, having attempted `pre.length + 1` fetches and yielded only the
`pre.length` earlier documents. -/
theorem ascendVisit_fail (tb : XTable) (fn : Nat → VisitRes)
    (pre post : List (XVal × Nat)) (vx : XVal) (kx : Nat)
    (hpre : ∀ p ∈ pre, ∃ d, getDocument tb p.2 = some d ∧ fn d = .cont)
    (hx : getDocument tb kx = none) :
    ∃ tr, ascendVisit (pre ++ (vx, kx) :: post) (fetchVisit tb fn) =
        (.errR (.notFoundKey kx), tr) ∧
      countFetch tr = pre.length + 1 ∧ countYield tr = pre.length := by
  induction pre with
  | nil =>
    refine ⟨[.fetchE kx], ?_, by simp [countFetch], by simp [countYield]⟩
    simp [ascendVisit, fetchVisit, hx]
  | cons p pre ih =>
    obtain ⟨d, hd, hcont⟩ := hpre p (List.mem_cons_self p pre)
    obtain ⟨tr, htr, hf, hy⟩ := ih (fun q hq => hpre q (List.mem_cons_of_mem p hq))
    refine ⟨[.fetchE p.2, .yieldE p.2 d] ++ tr, ?_, ?_, ?_⟩
    · simp [ascendVisit, fetchVisit, hd, hcont, htr]
    · rw [countFetch_append, hf]
      simp [countFetch, List.filter]
      omega
    · rw [countYield_append, hy]
      simp [countYield, List.filter]
      omega

/-! ## Claim theorems -/

/-- C1: the round-trip property `DecodeValue (EncodeValue v) = v with the
tag preserved` FAILS on the code for Integer values in the fixed-int
ranges: with `UseCompactInts(true)` the encoder writes Integer 5 as the
single positive-fixint byte `0x05` and Integer −1 as the negative-fixint
byte `0xff`, and `DecodeValue`, whose integer switch covers only the wide
markers `Uint8…Uint64`/`Int8…Int64` and has no fixed-int case, falls
through to `panic("unsupported type …")` on both.  A non-fixint integer
such as 1000 (marker `Uint16`) does round-trip, confirming the missing
fixed-int case is the slip. -/
theorem roundtrip_integer_fixint_bug :
    EncodeValue 9 (.integer 5) = some [0x05] ∧ DecodeValue 9 [0x05] = .fatal ∧
    EncodeValue 9 (.integer (-1)) = some [0xff] ∧ DecodeValue 9 [0xff] = .fatal ∧
    EncodeValue 9 (.integer 1000) = some [0xcd, 0x03, 0xe8] ∧
    DecodeValue 9 [0xcd, 0x03, 0xe8] = .ok (.integer 1000) [] :=
  ⟨rfl, rfl, rfl, rfl, rfl, rfl⟩

/-- C3: `ToStream` on an index-input node with a filter does NOT delegate
to the node's configured traversal strategy: the composite literal at
input.go:74–80 omits the `iop` field, so the built iterator's strategy is
the nil zero value and `Iterate` panics on the nil interface call instead
of performing the bounded seek.  The third conjunct shows an iterator
that does carry the strategy delegates and yields the matching documents,
so the slip is in `ToStream`'s wiring, not in `Iterate`. -/
theorem toStream_drops_iop_bug :
    (nodeGt2.ToStream txK3).map (fun it => it.iop) = .ok none ∧
    streamIterate nodeGt2 txK3 (fun _ => .cont) = .ok (.panicR, [.evalE]) ∧
    yieldedDocs (indexIterator.Iterate ⟨tblD4, idxD4, some .gtOp,
      some (.constE (.intX 3)), .asc⟩ (fun _ => .cont)).2 = [34] :=
  ⟨rfl, rfl, rfl⟩

/-- C4: a no-filter index-input node whose direction is explicitly
descending does NOT produce a descending traversal through `ToStream`:
the composite literal omits `orderByDirection`, the iterator sees the
zero token (`ILLEGAL`, not `DESC`) and scans ascending, yielding the
documents of keys {10, 20, 30} as 110, 120, 130 instead of the claimed
130, 120, 110.  The last conjunct shows an iterator with the direction
actually set to `DESC` does yield 130, 120, 110, so `Iterate` honours the
direction and the slip is `ToStream` dropping it. -/
theorem toStream_drops_direction_bug :
    (streamIterate nodeDescK3 txK3 (fun _ => .cont)).map
        (fun p => (p.1, yieldedDocs p.2)) = .ok (.okR, [110, 120, 130]) ∧
    (nodeDescK3.ToStream txK3).map (fun it => it.orderByDirection) = .ok .illegal ∧
    yieldedDocs (indexIterator.Iterate ⟨tblK3, idxK3, none, none, .desc⟩
      (fun _ => .cont)).2 = [130, 120, 110] :=
  ⟨rfl, rfl, rfl⟩

/-- C5: when the consumer signals the stop sentinel after some prefix of
yielded documents, `Iterate` returns the success result exactly as on
natural exhaustion, and no document beyond the stopping one is fetched:
the traversal fetches and yields exactly `pre.length + 1` documents. -/
theorem early_stop_is_success (tb : XTable) (idx : XIndex) (fn : Nat → VisitRes)
    (pre post : List (XVal × Nat)) (vx : XVal) (kx dx : Nat)
    (hent : idx.entries = pre ++ (vx, kx) :: post)
    (hpre : ∀ p ∈ pre, ∃ d, getDocument tb p.2 = some d ∧ fn d = .cont)
    (hx : getDocument tb kx = some dx) (hstop : fn dx = .stop) :
    ∃ tr, indexIterator.Iterate ⟨tb, idx, none, none, .asc⟩ fn = (.okR, tr) ∧
      countFetch tr = pre.length + 1 ∧ countYield tr = pre.length + 1 := by
  have h := ascendVisit_stop tb fn pre post vx kx dx hpre hx hstop
  simpa [indexIterator.Iterate, XIndex.AscendGreaterOrEqual, hent] using h

/-- Witness for C5: stopping on the very first document of a two-entry
index returns success with exactly one fetch. -/
theorem early_stop_is_success_witness :
    ∃ tr, indexIterator.Iterate ⟨[(1, 100), (2, 200)], ⟨[(.intX 10, 1), (.intX 20, 2)]⟩,
        none, none, .asc⟩ (fun d => if d = 100 then .stop else .cont) = (.okR, tr) ∧
      countFetch tr = 1 ∧ countYield tr = 1 :=
  early_stop_is_success [(1, 100), (2, 200)] ⟨[(.intX 10, 1), (.intX 20, 2)]⟩
    (fun d => if d = 100 then .stop else .cont) [] [(.intX 20, 2)] (.intX 10) 1 100
    rfl (by simp) rfl rfl

/-- C6: an index entry whose primary key is absent from the table aborts
the traversal immediately — for the no-filter full scan and for the
filtered greater-than seek alike — surfacing the key's not-found error as
`Iterate`'s result: `pre.length + 1` fetches are attempted, only the
`pre.length` preceding documents are yielded, and nothing after the
failing entry is visited. -/
theorem missing_key_surfaced :
    (∀ (tb : XTable) (idx : XIndex) (fn : Nat → VisitRes)
        (pre post : List (XVal × Nat)) (vx : XVal) (kx : Nat),
      idx.entries = pre ++ (vx, kx) :: post →
      (∀ p ∈ pre, ∃ d, getDocument tb p.2 = some d ∧ fn d = .cont) →
      getDocument tb kx = none →
      ∃ tr, indexIterator.Iterate ⟨tb, idx, none, none, .asc⟩ fn =
          (.errR (.notFoundKey kx), tr) ∧
        countFetch tr = pre.length + 1 ∧ countYield tr = pre.length)
    ∧ (∀ (tb : XTable) (idx : XIndex) (fn : Nat → VisitRes) (v : XVal)
        (pre post : List (XVal × Nat)) (vx : XVal) (kx : Nat),
      idx.entries.filter (fun e => xlt v e.1) = pre ++ (vx, kx) :: post →
      (∀ p ∈ pre, ∃ d, getDocument tb p.2 = some d ∧ fn d = .cont) →
      getDocument tb kx = none →
      ∃ tr, runOp .gtOp idx tb v fn = (.errR (.notFoundKey kx), tr) ∧
        countFetch tr = pre.length + 1 ∧ countYield tr = pre.length) := by
  constructor
  · intro tb idx fn pre post vx kx hent hpre hx
    have h := ascendVisit_fail tb fn pre post vx kx hpre hx
    simpa [indexIterator.Iterate, XIndex.AscendGreaterOrEqual, hent] using h
  · intro tb idx fn v pre post vx kx hent hpre hx
    have h := ascendVisit_fail tb fn pre post vx kx hpre hx
    simpa [runOp, hent] using h

/-- Witness for C6: a two-entry index whose second key (2) is absent from
the single-row table aborts the full scan with `notFoundKey 2` after one
yielded document; the same shape through the greater-than strategy with
bound Double 5. -/
theorem missing_key_surfaced_witness :
    (∃ tr, indexIterator.Iterate ⟨[(1, 100)], ⟨[(.intX 10, 1), (.intX 20, 2)]⟩,
        none, none, .asc⟩ (fun _ => .cont) = (.errR (.notFoundKey 2), tr) ∧
      countFetch tr = 2 ∧ countYield tr = 1)
    ∧ (∃ tr, runOp .gtOp ⟨[(.intX 10, 1), (.intX 20, 2)]⟩ [(1, 100)] (.doubleX 15)
        (fun _ => .cont) = (.errR (.notFoundKey 2), tr) ∧
      countFetch tr = 1 ∧ countYield tr = 0) :=
  ⟨missing_key_surfaced.1 [(1, 100)] ⟨[(.intX 10, 1), (.intX 20, 2)]⟩ (fun _ => .cont)
      [(.intX 10, 1)] [] (.intX 20) 2 rfl
      (by intro p hp
          rw [List.mem_singleton] at hp
          subst hp
          exact ⟨100, rfl, rfl⟩) rfl,
   missing_key_surfaced.2 [(1, 100)] ⟨[(.intX 10, 1), (.intX 20, 2)]⟩ (fun _ => .cont)
      (.doubleX 15) [] [] (.intX 20) 2 (by decide) (by simp) rfl⟩

/-- C2: with a filter expression present, `Iterate` evaluates it exactly
once per invocation regardless of how many rows the traversal visits; a
numeric bound is converted to Double before being handed to the traversal
strategy; and in the spec §8 scenario — greater-than strategy, filter
Integer 2, index over the Doubles {1, 2, 3, 4} — the stream yields exactly
the documents of 3 and 4. -/
theorem filter_eval_once_and_widening :
    (∀ (it : indexIterator) (fn : Nat → VisitRes) (ex : XExpr), it.e = some ex →
      countEval (it.Iterate fn).2 = 1)
    ∧ (∀ (it : indexIterator) (fn : Nat → VisitRes) (n : Int) (op : IterOpKind),
      it.e = some (.constE (.intX n)) → it.iop = some op →
      it.Iterate fn =
        ((runOp op it.index it.tb (.doubleX (n : ℚ)) fn).1,
          .evalE :: (runOp op it.index it.tb (.doubleX (n : ℚ)) fn).2))
    ∧ indexIterator.Iterate itGt2 (fun _ => .cont) =
        (.okR, [.evalE, .fetchE 3, .yieldE 3 33, .fetchE 4, .yieldE 4 34])
    ∧ yieldedDocs (indexIterator.Iterate itGt2 (fun _ => .cont)).2 = [33, 34] := by
  refine ⟨?_, ?_, rfl, rfl⟩
  · intro it fn ex he
    cases hev : ex.Eval with
    | error er => simp [indexIterator.Iterate, he, hev, countEval, List.filter]
    | ok v =>
      cases hcv : (if v.IsNumber then v.ConvertToFloat64 else Except.ok v) with
      | error er => simp [indexIterator.Iterate, he, hev, hcv, countEval, List.filter]
      | ok v2 =>
        cases hop : it.iop with
        | none => simp [indexIterator.Iterate, he, hev, hcv, hop, countEval, List.filter]
        | some op =>
          have h0 := countEval_runOp op it.index it.tb v2 fn
          simp [indexIterator.Iterate, he, hev, hcv, hop, countEval, List.filter] at h0 ⊢
          exact h0
  · intro it fn n op he hop
    simp [indexIterator.Iterate, he, hop, XExpr.Eval, XVal.IsNumber, XVal.ConvertToFloat64]

/-- Witness for C2: the scenario iterator evaluates its filter once, and
its run coincides with handing the widened bound Double 2 to the
greater-than strategy. -/
theorem filter_eval_once_and_widening_witness :
    countEval (indexIterator.Iterate itGt2 (fun _ => .cont)).2 = 1 ∧
    indexIterator.Iterate itGt2 (fun _ => .cont) =
      ((runOp .gtOp itGt2.index itGt2.tb (.doubleX ((2 : Int) : ℚ)) (fun _ => .cont)).1,
        .evalE :: (runOp .gtOp itGt2.index itGt2.tb (.doubleX ((2 : Int) : ℚ))
          (fun _ => .cont)).2) :=
  ⟨filter_eval_once_and_widening.1 itGt2 (fun _ => .cont) (.constE (.intX 2)) rfl,
   filter_eval_once_and_widening.2.1 itGt2 (fun _ => .cont) 2 .gtOp rfl rfl⟩

/-- C7: whenever `DecodeRaw` can frame the next value, `DecodeDocument`
and `DecodeArray` succeed, returning the lazy handle wrapping exactly that
raw span — they never look at the contents; and on a container whose
framing is fine but whose nested content is malformed (an extension block
with unknown type code `0x2`), decoding succeeds while the subsequent
iteration of the lazy handle is what fails. -/
theorem lazy_container_decode :
    (∀ (fuel : Nat) (bs raw rest : List Nat), DecodeRaw fuel bs = some (raw, rest) →
      DecodeDocument fuel bs = some (.docEnc raw, rest) ∧
      DecodeArray fuel bs = some (.arrEnc raw, rest))
    ∧ DecodeDocument 99 bsBadDoc = some (.docEnc bsBadDoc, [])
    ∧ docIterate 99 bsBadDoc = .fatal
    ∧ DecodeArray 99 bsBadArr = some (.arrEnc bsBadArr, [])
    ∧ arrIterate 99 bsBadArr = .fatal := by
  refine ⟨?_, rfl, rfl, rfl, rfl⟩
  intro fuel bs raw rest h
  exact ⟨by simp [DecodeDocument, h], by simp [DecodeArray, h]⟩

/-- Witness for C7: the universal part applied to the malformed-content
document bytes, whose framing `DecodeRaw` accepts whole. -/
theorem lazy_container_decode_witness :
    DecodeDocument 7 bsBadDoc = some (.docEnc bsBadDoc, []) ∧
    DecodeArray 7 bsBadDoc = some (.arrEnc bsBadDoc, []) :=
  lazy_container_decode.1 7 bsBadDoc bsBadDoc [] rfl

/-- C10: `EncodeValue` writes every Duration as the extension header for
the reserved type code `0x1` with fixed length 8 — the fixext8 marker
`0xd7` followed by the type byte `0x01` — and then the signed 64-bit
nanosecond count as 8 big-endian bytes (two's complement, `n mod 2^64`).
No Integer encoding ever starts with the `0xd7` marker, so a Duration's
wire form is never an Integer's; the concrete conjuncts check the layout
and the tag-preserving decode for −5 ns. -/
theorem duration_wire_format :
    (∀ (fuel : Nat) (n : Int), EncodeValue (fuel + 1) (.duration n) =
      some (encodeExtHeaderB 1 8 ++ be8 (n % 2 ^ 64).toNat))
    ∧ encodeExtHeaderB 1 8 = [0xd7, 0x01]
    ∧ (∀ n : Int, (be8 (n % 2 ^ 64).toNat).length = 8)
    ∧ (∀ n : Int, (encodeInt64Compact n).head? ≠ some 0xd7)
    ∧ DecodeValue 9 [0xd7, 0x01, 0xff, 0xff, 0xff, 0xff, 0xff, 0xff, 0xff, 0xfb] =
        .ok (.duration (-5)) [] ∧
    EncodeValue 9 (.duration (-5)) =
        some [0xd7, 0x01, 0xff, 0xff, 0xff, 0xff, 0xff, 0xff, 0xff, 0xfb] := by
  refine ⟨?_, rfl, ?_, ?_, rfl, rfl⟩
  · intro fuel n
    simp [EncodeValue]
  · intro n
    simp [be8, be4]
  · intro n
    unfold encodeInt64Compact
    split_ifs with h1 h2 h3 h4 h5 h6 h7 h8 h9 <;>
      simp [be2, be4, be8] <;> omega

/-- Extension-header parsing succeeds only on an extension leading
marker. -/
theorem decodeExtHeaderB_isExt (c : Nat) (r : List Nat) (x : Int × Nat × List Nat)
    (h : decodeExtHeaderB (c :: r) = some x) : isExtCode c = true := by
  simp only [decodeExtHeaderB] at h
  split_ifs at h with h1 h2 h3 h4
  all_goals simp only [isExtCode, Bool.or_eq_true, decide_eq_true_eq]
  all_goals omega

/-- C8: a well-formed extension header whose type code differs from the
reserved Duration code `0x1` makes `DecodeValue` panic (unrecoverable,
not a recoverable result); and any leading marker outside the recognized
set — array, map, string, extension, nil, binary, boolean,
integer-family, float — makes `DecodeValue` panic as well. -/
theorem unknown_marker_fatal :
    (∀ (fuel : Nat) (bs : List Nat) (t : Int) (len : Nat) (rest : List Nat),
      decodeExtHeaderB bs = some (t, len, rest) → t ≠ 1 →
      DecodeValue fuel bs = .fatal)
    ∧ (∀ (fuel c : Nat) (r : List Nat), recognizedMarker c = false →
      DecodeValue fuel (c :: r) = .fatal) := by
  constructor
  · intro fuel bs t len rest hhdr hne
    cases bs with
    | nil => simp [decodeExtHeaderB] at hhdr
    | cons c r =>
      have hext := decodeExtHeaderB_isExt c r (t, len, rest) hhdr
      have hc : (0xd4 ≤ c ∧ c ≤ 0xd8) ∨ (0xc7 ≤ c ∧ c ≤ 0xc9) := by
        simpa [isExtCode, Bool.or_eq_true, decide_eq_true_eq] using hext
      have harr : isArrayFamily c = false := by
        simp only [isArrayFamily, isFixedArrayCode, Bool.or_eq_false_iff,
          decide_eq_false_iff_not]
        omega
      have hmap : isMapFamily c = false := by
        simp only [isMapFamily, isFixedMapCode, Bool.or_eq_false_iff,
          decide_eq_false_iff_not]
        omega
      have hstr : isStringCode c = false := by
        simp only [isStringCode, Bool.or_eq_false_iff, decide_eq_false_iff_not]
        omega
      simp [DecodeValue, harr, hmap, hstr, hext, hhdr, hne]
  · intro fuel c r hrec
    simp only [recognizedMarker, Bool.or_eq_false_iff, isArrayFamily, isMapFamily,
      isFixedArrayCode, isFixedMapCode, isStringCode, isExtCode,
      decide_eq_false_iff_not] at hrec
    obtain ⟨⟨⟨⟨⟨⟨⟨⟨⟨⟨⟨harr1, harr2⟩, hmap⟩, hstr⟩, hext⟩, hnil⟩, hbin⟩, hbool⟩,
      hposfix⟩, hnegfix⟩, hint⟩, hfloat⟩ := hrec
    have harr : isArrayFamily c = false := by
      simp only [isArrayFamily, isFixedArrayCode, Bool.or_eq_false_iff,
        decide_eq_false_iff_not]
      exact ⟨harr1, harr2⟩
    have hmapb : isMapFamily c = false := by
      simp only [isMapFamily, isFixedMapCode, Bool.or_eq_false_iff,
        decide_eq_false_iff_not]
      exact hmap
    have hstrb : isStringCode c = false := by
      simp only [isStringCode, Bool.or_eq_false_iff, decide_eq_false_iff_not]
      exact hstr
    have hextb : isExtCode c = false := by
      simp only [isExtCode, Bool.or_eq_false_iff, decide_eq_false_iff_not]
      exact hext
    have h0 : ¬(c = 0xc0) := hnil
    have h1 : ¬(c = 0xc4 ∨ c = 0xc5 ∨ c = 0xc6) := by omega
    have h2 : ¬(c = 0xc2) := by omega
    have h3 : ¬(c = 0xc3) := by omega
    have h4 : ¬(0xcc ≤ c ∧ c ≤ 0xd3) := hint
    have h5 : ¬(c = 0xcb) := by omega
    simp [DecodeValue, harr, hmapb, hstrb, hextb, h0, h1, h2, h3, h4, h5]

/-- Witness for C8: the fixext1 header with unknown type code `0x2`, and
the invalid marker `0xc1`, both make `DecodeValue` panic. -/
theorem unknown_marker_fatal_witness :
    DecodeValue 9 [0xd4, 0x02, 0x00] = .fatal ∧ DecodeValue 9 [0xc1] = .fatal :=
  ⟨unknown_marker_fatal.1 9 [0xd4, 0x02, 0x00] 2 1 [0x00] rfl (by decide),
   unknown_marker_fatal.2 9 0xc1 [] (by decide)⟩

/-- C9: whenever `EncodeDocument` succeeds, the emitted bytes are the
map-length marker for exactly the number of (field name, value) pairs the
subsequent iteration writes — for a `FieldBuffer` (whose length accessor
is the field-list length) and for a lazily wrapped encoded document
(whose length is recomputed by iterating it) alike; and the analogous
property for `EncodeArray`'s element count. -/
theorem encoded_length_matches_pairs :
    (∀ (fuel : Nat) (v : MVal) (out : List Nat), EncodeDocument (fuel + 1) v = some out →
      ∃ ps body, writtenPairs fuel v = some ps ∧ encodePairs fuel ps = some body ∧
        out = encodeMapLenB ps.length ++ body)
    ∧ (∀ (fuel : Nat) (v : MVal) (out : List Nat), EncodeArray (fuel + 1) v = some out →
      ∃ es body, writtenElems fuel v = some es ∧ encodeElems fuel es = some body ∧
        out = encodeArrayLenB es.length ++ body) := by
  constructor
  · intro fuel v out h
    cases v with
    | docFB fs =>
      cases hb : encodePairs fuel fs with
      | none => simp [EncodeDocument, hb] at h
      | some body =>
        simp only [EncodeDocument, hb] at h
        exact ⟨fs, body, rfl, hb, (Option.some.inj h).symm⟩
    | docEnc bs =>
      cases hit : docIterate fuel bs with
      | ok ps rest =>
        cases hb : encodePairs fuel ps with
        | none => simp [EncodeDocument, docLengthE, hit, hb] at h
        | some body =>
          simp only [EncodeDocument, docLengthE, hit, hb] at h
          exact ⟨ps, body, by simp [writtenPairs, hit], hb, (Option.some.inj h).symm⟩
      | err => simp [EncodeDocument, docLengthE, hit] at h
      | fatal => simp [EncodeDocument, docLengthE, hit] at h
    | null => simp [EncodeDocument] at h
    | bool b => simp [EncodeDocument] at h
    | integer n => simp [EncodeDocument] at h
    | double bits => simp [EncodeDocument] at h
    | text s => simp [EncodeDocument] at h
    | blob b => simp [EncodeDocument] at h
    | duration n => simp [EncodeDocument] at h
    | arrVB es => simp [EncodeDocument] at h
    | arrEnc bs => simp [EncodeDocument] at h
  · intro fuel v out h
    cases v with
    | arrVB es =>
      cases hb : encodeElems fuel es with
      | none => simp [EncodeArray, hb] at h
      | some body =>
        simp only [EncodeArray, hb] at h
        exact ⟨es, body, rfl, hb, (Option.some.inj h).symm⟩
    | arrEnc bs =>
      cases hit : arrIterate fuel bs with
      | ok es rest =>
        cases hb : encodeElems fuel es with
        | none => simp [EncodeArray, arrLengthE, hit, hb] at h
        | some body =>
          simp only [EncodeArray, arrLengthE, hit, hb] at h
          exact ⟨es, body, by simp [writtenElems, hit], hb, (Option.some.inj h).symm⟩
      | err => simp [EncodeArray, arrLengthE, hit] at h
      | fatal => simp [EncodeArray, arrLengthE, hit] at h
    | null => simp [EncodeArray] at h
    | bool b => simp [EncodeArray] at h
    | integer n => simp [EncodeArray] at h
    | double bits => simp [EncodeArray] at h
    | text s => simp [EncodeArray] at h
    | blob b => simp [EncodeArray] at h
    | duration n => simp [EncodeArray] at h
    | docFB fs => simp [EncodeArray] at h
    | docEnc bs => simp [EncodeArray] at h

/-- Witness for C9: a one-field materialized document, the same document
as a lazily wrapped byte span, and a one-element array, each encoded with
the length marker matching the written pairs/elements. -/
theorem encoded_length_matches_pairs_witness :
    (∃ ps body, writtenPairs 2 (.docFB [([0x61], MVal.null)]) = some ps ∧
      encodePairs 2 ps = some body ∧
      [0x81, 0xa1, 0x61, 0xc0] = encodeMapLenB ps.length ++ body)
    ∧ (∃ ps body, writtenPairs 8 (.docEnc [0x81, 0xa1, 0x61, 0xc0]) = some ps ∧
      encodePairs 8 ps = some body ∧
      [0x81, 0xa1, 0x61, 0xc0] = encodeMapLenB ps.length ++ body)
    ∧ (∃ es body, writtenElems 2 (.arrVB [MVal.null]) = some es ∧
      encodeElems 2 es = some body ∧
      [0x91, 0xc0] = encodeArrayLenB es.length ++ body) :=
  ⟨encoded_length_matches_pairs.1 2 (.docFB [([0x61], MVal.null)]) [0x81, 0xa1, 0x61, 0xc0] rfl,
   encoded_length_matches_pairs.1 8 (.docEnc [0x81, 0xa1, 0x61, 0xc0]) [0x81, 0xa1, 0x61, 0xc0] rfl,
   encoded_length_matches_pairs.2 2 (.arrVB [MVal.null]) [0x91, 0xc0] rfl⟩

/-- Witness for C10: the universally quantified parts applied at concrete
inputs — the wire form of a 1-nanosecond Duration and the integer headers
of 5 and −5. -/
theorem duration_wire_format_witness :
    EncodeValue 4 (.duration 1) = some (encodeExtHeaderB 1 8 ++ be8 ((1 : Int) % 2 ^ 64).toNat) ∧
    (encodeInt64Compact 5).head? ≠ some 0xd7 ∧
    (encodeInt64Compact (-5)).head? ≠ some 0xd7 :=
  ⟨duration_wire_format.1 3 1,
   duration_wire_format.2.2.2.1 5,
   duration_wire_format.2.2.2.1 (-5)⟩
